import Mathlib

/-!
Shallow embedding of `src/simian/mac/common/applesus.py` (Apple SUS shared
functions) together with proofs about the embedded code.

Modelling conventions:
* A calendar date is a `Nat`: the number of days since a fixed Monday epoch,
  so `d % 7` is what `date.weekday()` returns in Python (0 = Monday up to
  6 = Sunday) and adding a `datetime.timedelta(days = n)` is `+ n`.
* Raised Python exceptions are the explicit error side of `Except PyError`.
* A Python dict that is only ever written by key assignment and read by key
  lookup is modelled extensionally as a function to optional values; the
  catalog `Products` dict, whose key set, ordering and deletions matter, is
  an association list.
* External collaborators (the datastore, the task queue, `minidom`) are out
  of scope of the repository file; where a claim needs one, it is either a
  parameter of the embedded function or the modelled observable is the pure
  computation the claim is about.
-/

/-- Python exception classes raised, or raisable, by the embedded code. -/
inductive PyError
  | valueError (msg : String)
  | typeError
  | nameError
  | documentFormatError
  deriving DecidableEq, Repr

/-- The constant `OS_VERSIONS` from applesus.py. -/
def OS_VERSIONS : List String := ["10.5", "10.6", "10.7"]

/-- Modelled from the spec: `common.UNSTABLE`, the entry track name, from the
`simian.mac.common` module which is not under src/; the canonical track
enumeration of the spec is unstable, testing, stable. -/
def UNSTABLE : String := "unstable"

/-- Modelled from the spec: `common.TESTING` (see `UNSTABLE`); the source
corroborates this value by passing the literal string in the recursive call
`GetAutoPromoteDate('testing', applesus_product)`. -/
def TESTING : String := "testing"

/-- Modelled from the spec: `common.STABLE` (see `UNSTABLE`). -/
def STABLE : String := "stable"

/-- Modelled from the spec: `common.TRACKS`, the ordered list of all known
tracks (spec section 3: ordered set unstable, testing, stable). -/
def TRACKS : List String := [UNSTABLE, TESTING, STABLE]

/-- The dict `AUTO_PROMOTE_PHASE_DAYS_MAP` from applesus.py, with entries
testing to 4 and stable to 7, modelled through its `.get` access (an absent
key gives `none`, the Python `None`). -/
def AUTO_PROMOTE_PHASE_DAYS_MAP : String → Option Nat := fun track =>
  if track = TESTING then some 4
  else if track = STABLE then some 7
  else none

/-- First of the weekday constants `MON, TUE, WED, THU, FRI, SAT, SUN =
range(0, 7)` from applesus.py. -/
def MON : Nat := 0

/-- Weekday constant, see `MON`. -/
def TUE : Nat := 1

/-- Weekday constant, see `MON`. -/
def WED : Nat := 2

/-- Weekday constant, see `MON`. -/
def THU : Nat := 3

/-- Weekday constant, see `MON`. -/
def FRI : Nat := 4

/-- Weekday constant, see `MON`. -/
def SAT : Nat := 5

/-- Weekday constant, see `MON`. -/
def SUN : Nat := 6

/-- The fields of a `models.AppleSUSProduct` entity that applesus.py reads:
`manual_override`, `tracks` (a list of track name strings) and `mtime`, of
which only the date portion `mtime.date()` is ever used, so `mtime` is kept
here directly as that date (days since the Monday epoch). -/
structure AppleSUSProduct where
  manual_override : Bool
  tracks : List String
  mtime : Nat
  deriving DecidableEq, Repr

/-- The function `_GetNextWeekdayDate(weekday, min_date)` from applesus.py,
with both arguments supplied: every call site in the file passes `min_date`
(the `None` default that would consult the current clock is never used), and
the call site relying on the `weekday` default writes `WED` out here. -/
def GetNextWeekdayDate (weekday : Nat) (min_date : Nat) : Nat :=
  if min_date % 7 > weekday then
    min_date + (7 - min_date % 7 + weekday)
  else
    min_date + (weekday - min_date % 7)

/-- The function `GetAutoPromoteDate(track, applesus_product)` from
applesus.py. `Except.ok none` is a normal `return None`; `Except.error` is a
raised exception. The Python guard `if not days` is truthy both for the
absent key (`None`) and for a zero entry, hence the two error branches. In
the stable branch, had the recursive testing computation returned `None`,
the line `previous_track_date + auto_promote_offset` would raise `TypeError`
(`None` plus a timedelta); that is the `Except.ok none` arm of the match. -/
def GetAutoPromoteDate (track : String) (p : AppleSUSProduct) :
    Except PyError (Option Nat) :=
  if p.manual_override then Except.ok none
  else if UNSTABLE ∉ p.tracks then Except.ok none
  else
    match AUTO_PROMOTE_PHASE_DAYS_MAP track with
    | none => Except.error (PyError.valueError
        ("Invalid track was specified: " ++ track))
    | some days =>
      if days = 0 then Except.error (PyError.valueError
          ("Invalid track was specified: " ++ track))
      else if htr : track = TESTING then
        Except.ok (some (if SAT ≤ (p.mtime + days) % 7 then
          GetNextWeekdayDate MON (p.mtime + days)
        else p.mtime + days))
      else
        match (if TESTING ∈ p.tracks then Except.ok (some p.mtime)
               else GetAutoPromoteDate TESTING p) with
        | Except.error e => Except.error e
        | Except.ok none => Except.error PyError.typeError
        | Except.ok (some previous_track_date) =>
          Except.ok (some (GetNextWeekdayDate WED (previous_track_date + days)))
termination_by (if track = TESTING then 0 else 1)
decreasing_by simp [htr]

/-- The shape of a parsed Apple SUS catalog plist as applesus.py uses it: the
top-level `Products` dict (an ordered association list, product id to opaque
descriptor of type `V`) and all remaining content of the document (`other`,
opaque type `O`), which the generation code never touches. A catalog without
a `Products` key is modelled by the empty list: the code reads the dict with
a `.get` whose default is an empty dict, and the deletion loop is then
empty. -/
structure ApplePlist (V O : Type) where
  Products : List (String × V)
  other : O

/-- The filtering step of `GenerateAppleSUSCatalog` (applesus.py lines
210-214): take the key list of the master plist `Products` dict and delete
from the plist every product id not in `approved_product_ids`. Deleting key
`product_id` from a dict keeps exactly the entries with a different key. -/
def GenerateAppleSUSCatalogFilter {V O : Type} (approved_product_ids : List String)
    (untouched_catalog_plist : ApplePlist V O) : ApplePlist V O :=
  (untouched_catalog_plist.Products.map Prod.fst).foldl
    (fun new_plist product_id =>
      if product_id ∉ approved_product_ids then
        { new_plist with
          Products := new_plist.Products.filter (fun e => e.1 != product_id) }
      else new_plist)
    untouched_catalog_plist

/-- Python truthiness of the optional `track` argument of
`GenerateAppleSUSCatalogs` (default `None`): absent (`None`) and the empty
string are falsy. -/
def truthyTrack : Option String → Bool
  | none => false
  | some s => s != ""

/-- Python truthiness of the optional `tracks` argument of
`GenerateAppleSUSCatalogs` (default `None`): absent (`None`) and the empty
list are falsy. -/
def truthyTracks : Option (List String) → Bool
  | none => false
  | some l => !l.isEmpty

/-- The function `GenerateAppleSUSCatalogs(track, tracks, delay)` from
applesus.py. The modelled observable is the list of `(os_version, track)`
pairs for which `GenerateAppleSUSCatalog` is invoked (when `delay = 0`) or
scheduled as a deferred task (when `delay > 0`); the nested loops enumerate
the same pairs in either mode, so the `delay` argument, the task naming and
the persistence side effects are outside the model. The chain
`if track and tracks` / `elif not tracks and not track` / `elif track` is
translated with Python truthiness via `truthyTrack` and `truthyTracks`. -/
def GenerateAppleSUSCatalogs (track : Option String)
    (tracks : Option (List String)) :
    Except PyError (List (String × String)) :=
  if truthyTrack track && truthyTracks tracks then
    Except.error (PyError.valueError "only one of track and tracks is allowed")
  else if !truthyTracks tracks && !truthyTrack track then
    Except.ok (TRACKS.flatMap (fun t =>
      OS_VERSIONS.map (fun os_version => (os_version, t))))
  else if truthyTrack track then
    Except.ok ([track.getD ""].flatMap (fun t =>
      OS_VERSIONS.map (fun os_version => (os_version, t))))
  else
    Except.ok ((tracks.getD []).flatMap (fun t =>
      OS_VERSIONS.map (fun os_version => (os_version, t))))

/-- Python 2 `\w` (no locale/unicode flag), as used in the
`_ParseInstallerScriptString` pattern: ASCII letters, digits, underscore. -/
def isWordChar (c : Char) : Bool := c.isAlpha || c.isDigit || c == '_'

/-- Python 2 `\s`: space, tab, newline, carriage return, vertical tab,
form feed. -/
def isSpaceChar (c : Char) : Bool :=
  c == ' ' || c == '\t' || c == '\n' || c == '\r' || c == '\x0b' || c == '\x0c'

/-- Whether `$` (with `re.MULTILINE`) holds at this position: end of the
input or just before a newline. -/
def atLineEnd : List Char → Bool
  | [] => true
  | c :: _ => c == '\n'

/-- The tail `([^\x02]*?)\2;$` of the key-value alternative of the
`_ParseInstallerScriptString` pattern, at the position right after the
opening quote `q`. In the source the value class is written `[^\\2]` inside
a non-raw string, so the character class contains the octal escape for
U+0002, not a backreference: the value may contain any character except
U+0002 — including the quote character itself when it is not followed by `;`
at a line end. The lazy quantifier first tries to terminate (matching quote,
then `;`, then line end) and only otherwise extends the captured value by
one character. Returns the captured value and the input after the `;`. -/
def matchValue (q : Char) : List Char → Option (List Char × List Char)
  | [] => none
  | c :: cs =>
    match cs with
    | ';' :: rest =>
      if c == q && atLineEnd rest then some ([], rest)
      else if c == '\x02' then none
      else (matchValue q (';' :: rest)).map (fun vr => (c :: vr.1, vr.2))
    | cs2 =>
      if c == '\x02' then none
      else (matchValue q cs2).map (fun vr => (c :: vr.1, vr.2))

/-- The comment alternative `^//[^\n]*$` of the pattern, tried at a
line-start position: two slashes, then greedily the rest of the line, after
which `$` always holds. Returns the remaining input (the newline, if any,
is not consumed by the match). -/
def matchComment : List Char → Option (List Char)
  | '/' :: '/' :: rest => some (rest.dropWhile (fun c => c != '\n'))
  | _ => none

/-- The key-value alternative `^"(\w+)"\s*=\s*(["\x27])([^\x02]*?)\2;$` of
the pattern, tried at a line-start position. The deterministic maximal-run
scans for `\w+` and for each `\s*` are faithful to regex backtracking
because the character required right after each run (a double quote, `=`, a
quote) is never itself a word (respectively space) character, so no shorter
run can succeed where the maximal one fails. Returns the two captured
groups and the remaining input after the `;`. -/
def matchKV (l : List Char) : Option (String × String × List Char) :=
  match l with
  | '"' :: rest =>
    let key := rest.takeWhile isWordChar
    if key.isEmpty then none
    else
      match rest.dropWhile isWordChar with
      | '"' :: r2 =>
        match r2.dropWhile isSpaceChar with
        | '=' :: r3 =>
          match r3.dropWhile isSpaceChar with
          | q :: r4 =>
            if q == '"' || q == '\x27' then
              match matchValue q r4 with
              | some (v, rest2) => some (key.asString, v.asString, rest2)
              | none => none
            else none
          | [] => none
        | _ => none
      | _ => none
  | _ => none

/-- The scan loop of `re.finditer` over the input, specialised to the
`_ParseInstallerScriptString` pattern: both alternatives are anchored with
`^` (`re.MULTILINE`), so a match is only possible at a line start (the start
of the input or just after a newline); the comment alternative is tried
first; after a match the scan resumes at its end (every match here is
nonempty and never ends just after a newline), otherwise one character
further. Yields the captured groups of the key-value matches in order,
which is what the `if i.group(1)` loop body keeps (`\w+` is nonempty, so
group 1 of a key-value match is never falsy, and a comment match has no
group 1). The fuel argument only bounds the recursion depth: every step
consumes at least one character, so fuel `length + 1` never reaches zero. -/
def scanAux : Nat → Bool → List Char → List (String × String)
  | 0, _, _ => []
  | _ + 1, _, [] => []
  | fuel + 1, atStart, c :: cs =>
    if atStart then
      match matchComment (c :: cs) with
      | some rest => scanAux fuel false rest
      | none =>
        match matchKV (c :: cs) with
        | some (k, v, rest) => (k, v) :: scanAux fuel false rest
        | none => scanAux fuel (c == '\n') cs
    else scanAux fuel (c == '\n') cs

/-- The list of (group 1, group 3) captures that
`re.finditer(kv_split, istr)` yields in `_ParseInstallerScriptString`. -/
def FindIterMatches (istr : String) : List (String × String) :=
  scanAux (istr.length + 1) true istr.data

/-- The method `DistFileDocument._ParseInstallerScriptString(istr)` from
applesus.py: the `installer_script` dict built by running
`installer_script[i.group(1)] = i.group(3)` over the matches in order. A
Python dict that is only written by key assignment and read by key lookup
is modelled extensionally as a function from keys to optional values. -/
def ParseInstallerScriptString (istr : String) : String → Option String :=
  (FindIterMatches istr).foldl
    (fun installer_script kv =>
      fun k => if k = kv.1 then some kv.2 else installer_script k)
    (fun _ => none)

/-- The parts of a `minidom` document that `DistFileDocument.LoadDocument`
reads: for tag `localization`, only whether any element exists (the bound
element `l` is never used afterwards), and for tag `strings`, each element
child nodes `nodeValue` list (`none` models a `None` nodeValue, as on a
non-text child node). -/
structure XmlDoc where
  localization : List Unit
  strings : List (List (Option String))

/-- The method `DistFileDocument.LoadDocument(distfile_xml)` from
applesus.py, parameterised by the external XML parser
(`minidom.parseString`), modelled as returning `none` exactly when the
parser raises `ExpatError` on the input. Translation notes, from the
source:
* On a parse failure, the handler clause
  `except xml.parsers.expat.ExpatError, e:` evaluates the name `xml`; the
  module only binds `minidom` (its import line reads
  `from xml.dom import minidom`), so that lookup raises `NameError` — in Python 2 the new
  exception replaces the `ExpatError` being handled — and the
  `DocumentFormatError` re-raise branch is unreachable.
* `p.getElementsByTagName('localization')[0]`, and after it
  `p.getElementsByTagName('strings')[0]`, raise `IndexError` on an empty
  element list, caught and converted to `DocumentFormatError`.
* The join of the child `nodeValue` list raises `TypeError` (uncaught: only
  `IndexError` is handled) if some child nodeValue is `None`.
The returned dict is `self._installer_script`, the value that
`GetInstallerScript` afterwards hands back. -/
def LoadDocument (parseString : String → Option XmlDoc)
    (distfile_xml : String) : Except PyError (String → Option String) :=
  match parseString distfile_xml with
  | none => Except.error PyError.nameError
  | some p =>
    match p.localization.head? with
    | none => Except.error PyError.documentFormatError
    | some _ =>
      match p.strings.head? with
      | none => Except.error PyError.documentFormatError
      | some childValues =>
        if childValues.any (fun cn => cn.isNone) then Except.error PyError.typeError
        else Except.ok (ParseInstallerScriptString
          (String.join (childValues.map (fun cn => cn.getD ""))))

/-- Helper: the result of `GetNextWeekdayDate` falls on the requested
weekday (0 = Monday convention). -/
theorem getNextWeekdayDate_mod (w m : Nat) (hw : w < 7) :
    GetNextWeekdayDate w m % 7 = w := by
  unfold GetNextWeekdayDate
  split <;> omega

/-- Helper: the result of `GetNextWeekdayDate` is at least the minimum
date. -/
theorem getNextWeekdayDate_ge (w m : Nat) : m ≤ GetNextWeekdayDate w m := by
  unfold GetNextWeekdayDate
  split <;> omega

/-- Helper: the result of `GetNextWeekdayDate` is the earliest date at or
after the minimum date that falls on the requested weekday. -/
theorem getNextWeekdayDate_min (w m y : Nat) (hy : m ≤ y) (hwy : y % 7 = w) :
    GetNextWeekdayDate w m ≤ y := by
  unfold GetNextWeekdayDate
  split <;> omega

/-- Helper: the deletion fold of the catalog filtering step never touches
the content outside the `Products` dict. -/
theorem catalogFilter_foldl_other {V O : Type} (approved : List String)
    (K : List String) (acc : ApplePlist V O) :
    (K.foldl (fun new_plist product_id =>
      if product_id ∉ approved then
        { new_plist with
          Products := new_plist.Products.filter (fun e => e.1 != product_id) }
      else new_plist) acc).other = acc.other := by
  induction K generalizing acc with
  | nil => rfl
  | cons k K ih =>
    rw [List.foldl_cons, ih]
    split <;> rfl

/-- Helper: the deletion fold of the catalog filtering step acts on the
`Products` list componentwise. -/
theorem catalogFilter_foldl_products {V O : Type} (approved : List String)
    (K : List String) (acc : ApplePlist V O) :
    (K.foldl (fun new_plist product_id =>
      if product_id ∉ approved then
        { new_plist with
          Products := new_plist.Products.filter (fun e => e.1 != product_id) }
      else new_plist) acc).Products =
    K.foldl (fun l product_id =>
      if product_id ∉ approved then l.filter (fun e => e.1 != product_id)
      else l) acc.Products := by
  induction K generalizing acc with
  | nil => rfl
  | cons k K ih =>
    rw [List.foldl_cons, List.foldl_cons, ih]
    split <;> rfl

/-- Helper: deleting, in turn, every key of `K` that is not approved keeps
exactly the entries whose key is approved or lies outside `K`. -/
theorem catalogFilter_del_eq_filter {V : Type} (approved : List String)
    (K : List String) (l : List (String × V)) :
    K.foldl (fun l product_id =>
      if product_id ∉ approved then l.filter (fun e => e.1 != product_id)
      else l) l =
    l.filter (fun e => decide (e.1 ∈ approved) || !(decide (e.1 ∈ K))) := by
  induction K generalizing l with
  | nil => simp
  | cons k K ih =>
    rw [List.foldl_cons]
    by_cases hk : k ∉ approved
    · rw [if_pos hk, ih, List.filter_filter]
      apply List.filter_congr
      intro e _
      by_cases hek : e.1 = k
      · simp [hek, hk]
      · simp [hek]
    · rw [if_neg hk, ih]
      apply List.filter_congr
      intro e _
      by_cases hek : e.1 = k
      · simp [hek, not_not.mp hk]
      · simp [hek]

/-- Helper: `getLast?` of a cons prefers the last element of the tail. -/
theorem getLast?_cons_or {α : Type} (a : α) (l : List α) :
    (a :: l).getLast? = l.getLast?.or (some a) := by
  induction l generalizing a with
  | nil => simp
  | cons b t ih =>
    rw [List.getLast?_cons_cons, ih b]
    simp [Option.or_assoc]

/-- Helper: looking up a key in the dict built by folding key assignments
over a match list returns the value of the last match with that key, and
falls back to the initial dict when the key was never assigned. -/
theorem parseDict_foldl_lookup (ms : List (String × String))
    (f : String → Option String) (k : String) :
    (ms.foldl (fun installer_script kv =>
      fun x => if x = kv.1 then some kv.2 else installer_script x) f) k =
    ((((ms.filter (fun e => e.1 == k)).map Prod.snd).getLast?).or (f k)) := by
  induction ms generalizing f with
  | nil => simp
  | cons e tl ih =>
    rw [List.foldl_cons, ih]
    by_cases he : e.1 = k
    · simp [List.filter_cons, he, getLast?_cons_or, Option.or_assoc]
    · have hne : ¬(k = e.1) := fun h => he h.symm
      simp [List.filter_cons, he, hne]

/-- C1, counterexample: the claim says every product combined with a
non-auto-promotion track makes `GetAutoPromoteDate` raise `ValueError`, but
a product with `manual_override` set and track `unstable` returns `None`
without raising: the manual-override and entry-track guards run before the
track is validated. -/
theorem C1_counterexample :
    GetAutoPromoteDate "unstable" ⟨true, [], 0⟩ = Except.ok none := by
  simp [GetAutoPromoteDate]

/-- C1, amended: for every product that reaches the track validation (no
manual override and the unstable track present), `GetAutoPromoteDate` on a
track that is neither testing nor stable raises
`ValueError('Invalid track was specified: ...')`. -/
theorem C1_amended (track : String) (p : AppleSUSProduct)
    (hm : p.manual_override = false) (hu : UNSTABLE ∈ p.tracks)
    (h1 : track ≠ TESTING) (h2 : track ≠ STABLE) :
    GetAutoPromoteDate track p =
      Except.error (PyError.valueError ("Invalid track was specified: " ++ track)) := by
  unfold GetAutoPromoteDate
  simp [hm, hu, AUTO_PROMOTE_PHASE_DAYS_MAP, h1, h2]

/-- C1, witness for the amended theorem. -/
theorem C1_amended_witness :
    GetAutoPromoteDate "unstable" ⟨false, ["unstable"], 0⟩ =
      Except.error (PyError.valueError "Invalid track was specified: unstable") :=
  C1_amended "unstable" ⟨false, ["unstable"], 0⟩ rfl (by decide)
    (by decide) (by decide)

/-- C2 (code bug): on an input that the XML parser cannot decode,
`LoadDocument` raises `NameError` — not the `DocumentFormatError` promised
by the spec and by the docstring of the function itself — because the
handler clause references the unbound name `xml`. -/
theorem C2_undecodable_input_raises_NameError :
    LoadDocument (fun _ => none) "this is not a valid xml document" =
      Except.error PyError.nameError := rfl

/-- C3: for a product without manual override that is in unstable but not
yet in testing, the stable promotion date is the next Wednesday at or after
the testing promotion date (computed by the same algorithm) plus 7 days,
and a null recursive testing result would make the stable result null
(vacuously: under these hypotheses the testing computation always returns a
date). -/
theorem C3_recursive_anchoring (p : AppleSUSProduct)
    (hm : p.manual_override = false) (hu : UNSTABLE ∈ p.tracks)
    (ht : TESTING ∉ p.tracks) :
    (GetAutoPromoteDate TESTING p = Except.ok none →
      GetAutoPromoteDate STABLE p = Except.ok none) ∧
    (∀ d, GetAutoPromoteDate TESTING p = Except.ok (some d) →
      ∃ w, GetAutoPromoteDate STABLE p = Except.ok (some w) ∧
        w % 7 = WED ∧ d + 7 ≤ w ∧
        ∀ y, d + 7 ≤ y → y % 7 = WED → w ≤ y) := by
  have htest : ∃ t, GetAutoPromoteDate TESTING p = Except.ok (some t) := by
    unfold GetAutoPromoteDate
    simp [hm, hu, show AUTO_PROMOTE_PHASE_DAYS_MAP TESTING = some 4 from rfl]
  constructor
  · intro hnone
    obtain ⟨t, ht2⟩ := htest
    rw [ht2] at hnone
    simp at hnone
  · intro d hd
    have hstable : GetAutoPromoteDate STABLE p =
        Except.ok (some (GetNextWeekdayDate WED (d + 7))) := by
      unfold GetAutoPromoteDate
      simp [hm, hu, ht, show AUTO_PROMOTE_PHASE_DAYS_MAP STABLE = some 7 from rfl,
        show ¬(STABLE = TESTING) by decide, hd]
    exact ⟨GetNextWeekdayDate WED (d + 7), hstable,
      getNextWeekdayDate_mod WED (d + 7) (by decide),
      getNextWeekdayDate_ge WED (d + 7),
      fun y hy hwy => getNextWeekdayDate_min WED (d + 7) y hy hwy⟩

/-- C3, witness: mtime on a Monday epoch day 0 gives testing date 4 (a
Friday) and stable date 16, the Wednesday at or after day 11. -/
theorem C3_witness :
    GetAutoPromoteDate STABLE ⟨false, ["unstable"], 0⟩ = Except.ok (some 16) := by
  have h := (C3_recursive_anchoring ⟨false, ["unstable"], 0⟩ rfl (by decide)
    (by decide)).2 4 (by simp [GetAutoPromoteDate, AUTO_PROMOTE_PHASE_DAYS_MAP,
      UNSTABLE, TESTING, SAT, GetNextWeekdayDate])
  obtain ⟨w, hres, hmod, hge, hmin⟩ := h
  have h16 := hmin 16 (by decide) (by decide)
  have hWED : WED = 2 := rfl
  rw [hWED] at hmod
  have hw : w = 16 := by omega
  rw [hw] at hres
  exact hres

/-- C4: the weekday-advance helper returns the earliest date at or after
the minimum date falling on the requested weekday (0 = Monday convention);
for target testing the promotion date is mtime + 4, advanced to the
following Monday exactly when it falls on Saturday or Sunday; for target
stable (product already in testing) it is the earliest Wednesday at or
after mtime + 7. -/
theorem C4_weekday_rules :
    (∀ w m, w < 7 →
      GetNextWeekdayDate w m % 7 = w ∧ m ≤ GetNextWeekdayDate w m ∧
        ∀ y, m ≤ y → y % 7 = w → GetNextWeekdayDate w m ≤ y) ∧
    (∀ p : AppleSUSProduct, p.manual_override = false → UNSTABLE ∈ p.tracks →
      ∃ r, GetAutoPromoteDate TESTING p = Except.ok (some r) ∧
        ((p.mtime + 4) % 7 < SAT → r = p.mtime + 4) ∧
        (SAT ≤ (p.mtime + 4) % 7 →
          r % 7 = MON ∧ p.mtime + 4 ≤ r ∧
            ∀ y, p.mtime + 4 ≤ y → y % 7 = MON → r ≤ y)) ∧
    (∀ p : AppleSUSProduct, p.manual_override = false → UNSTABLE ∈ p.tracks →
      TESTING ∈ p.tracks →
      ∃ r, GetAutoPromoteDate STABLE p = Except.ok (some r) ∧
        r % 7 = WED ∧ p.mtime + 7 ≤ r ∧
        ∀ y, p.mtime + 7 ≤ y → y % 7 = WED → r ≤ y) := by
  refine ⟨fun w m hw => ⟨getNextWeekdayDate_mod w m hw, getNextWeekdayDate_ge w m,
    fun y hy hwy => getNextWeekdayDate_min w m y hy hwy⟩, ?_, ?_⟩
  · intro p hm hu
    have hres : GetAutoPromoteDate TESTING p =
        Except.ok (some (if SAT ≤ (p.mtime + 4) % 7 then
          GetNextWeekdayDate MON (p.mtime + 4) else p.mtime + 4)) := by
      unfold GetAutoPromoteDate
      simp [hm, hu, show AUTO_PROMOTE_PHASE_DAYS_MAP TESTING = some 4 from rfl]
    by_cases hwk : SAT ≤ (p.mtime + 4) % 7
    · rw [if_pos hwk] at hres
      exact ⟨GetNextWeekdayDate MON (p.mtime + 4), hres,
        fun hlt => absurd hwk (by omega),
        fun _ => ⟨getNextWeekdayDate_mod MON (p.mtime + 4) (by decide),
          getNextWeekdayDate_ge MON (p.mtime + 4),
          fun y hy hwy => getNextWeekdayDate_min MON (p.mtime + 4) y hy hwy⟩⟩
    · rw [if_neg hwk] at hres
      exact ⟨p.mtime + 4, hres, fun _ => rfl, fun hge => absurd hge hwk⟩
  · intro p hm hu ht
    have hres : GetAutoPromoteDate STABLE p =
        Except.ok (some (GetNextWeekdayDate WED (p.mtime + 7))) := by
      unfold GetAutoPromoteDate
      simp [hm, hu, ht, show AUTO_PROMOTE_PHASE_DAYS_MAP STABLE = some 7 from rfl,
        show ¬(STABLE = TESTING) by decide]
    exact ⟨GetNextWeekdayDate WED (p.mtime + 7), hres,
      getNextWeekdayDate_mod WED (p.mtime + 7) (by decide),
      getNextWeekdayDate_ge WED (p.mtime + 7),
      fun y hy hwy => getNextWeekdayDate_min WED (p.mtime + 7) y hy hwy⟩

/-- C4, witness: concrete instances of all three conjuncts. -/
theorem C4_witness :
    (GetNextWeekdayDate 2 5 % 7 = 2 ∧ 5 ≤ GetNextWeekdayDate 2 5) ∧
    GetAutoPromoteDate TESTING ⟨false, ["unstable"], 0⟩ = Except.ok (some 4) ∧
    GetAutoPromoteDate STABLE ⟨false, ["unstable", "testing"], 0⟩ =
      Except.ok (some 9) := by
  obtain ⟨h1, h2, h3⟩ := C4_weekday_rules
  refine ⟨⟨(h1 2 5 (by decide)).1, (h1 2 5 (by decide)).2.1⟩, ?_, ?_⟩
  · obtain ⟨r, hres, hnw, _⟩ := h2 ⟨false, ["unstable"], 0⟩ rfl (by decide)
    have hr : r = 4 := hnw (by decide)
    rw [hr] at hres
    exact hres
  · obtain ⟨r, hres, hmod, hge, hmin⟩ := h3 ⟨false, ["unstable", "testing"], 0⟩
      rfl (by decide) (by decide)
    have h9 := hmin 9 (by decide) (by decide)
    have hWED : WED = 2 := rfl
    rw [hWED] at hmod
    have hge2 : 7 ≤ r := hge
    have hr : r = 9 := by omega
    rw [hr] at hres
    exact hres

/-- C5: the filtering step of catalog generation keeps exactly the product
identifiers present both in the master catalog and in the approval set, and
leaves everything outside the product list unchanged. -/
theorem C5_filter_intersection {V O : Type} (approved : List String)
    (M : ApplePlist V O) :
    (GenerateAppleSUSCatalogFilter approved M).other = M.other ∧
    ∀ pid, pid ∈ (GenerateAppleSUSCatalogFilter approved M).Products.map Prod.fst ↔
      (pid ∈ M.Products.map Prod.fst ∧ pid ∈ approved) := by
  constructor
  · exact catalogFilter_foldl_other approved _ M
  · intro pid
    unfold GenerateAppleSUSCatalogFilter
    rw [catalogFilter_foldl_products, catalogFilter_del_eq_filter]
    constructor
    · intro h
      rw [List.mem_map] at h
      obtain ⟨e, he, hfst⟩ := h
      rw [List.mem_filter] at he
      obtain ⟨heM, hcond⟩ := he
      have hkey : e.1 ∈ M.Products.map Prod.fst := List.mem_map.mpr ⟨e, heM, rfl⟩
      simp only [hkey, decide_True, Bool.not_true, Bool.or_false] at hcond
      exact ⟨hfst ▸ hkey, hfst ▸ of_decide_eq_true hcond⟩
    · intro ⟨hkey, happ⟩
      rw [List.mem_map] at hkey
      obtain ⟨e, heM, hfst⟩ := hkey
      refine List.mem_map.mpr ⟨e, List.mem_filter.mpr ⟨heM, ?_⟩, hfst⟩
      simp [hfst ▸ happ]

/-- C5, witness: a master catalog with products a and b filtered by the
approval set containing a and c. -/
theorem C5_witness :
    (GenerateAppleSUSCatalogFilter ["a", "c"]
      (⟨[("a", 1), ("b", 2)], 5⟩ : ApplePlist Nat Nat)).other = 5 ∧
    ("b" ∈ (GenerateAppleSUSCatalogFilter ["a", "c"]
      (⟨[("a", 1), ("b", 2)], 5⟩ : ApplePlist Nat Nat)).Products.map Prod.fst ↔
      ("b" ∈ (["a", "b"] : List String) ∧ "b" ∈ (["a", "c"] : List String))) :=
  ⟨(C5_filter_intersection ["a", "c"] ⟨[("a", 1), ("b", 2)], 5⟩).1,
    (C5_filter_intersection ["a", "c"] ⟨[("a", 1), ("b", 2)], 5⟩).2 "b"⟩

/-- C6: a product with manual override set, or not in the unstable entry
track, is never auto-promoted: for a valid target track (testing or stable)
the result is None, whatever the other fields are. -/
theorem C6_never_promoted (track : String) (p : AppleSUSProduct)
    (htrack : track = TESTING ∨ track = STABLE)
    (h : p.manual_override = true ∨ UNSTABLE ∉ p.tracks) :
    GetAutoPromoteDate track p = Except.ok none := by
  unfold GetAutoPromoteDate
  rcases h with h | h
  · simp [h]
  · by_cases hm : p.manual_override <;> simp [hm, h]

/-- C6, witness. -/
theorem C6_witness :
    GetAutoPromoteDate "testing" ⟨true, ["unstable", "testing"], 5⟩ = Except.ok none :=
  C6_never_promoted "testing" ⟨true, ["unstable", "testing"], 5⟩ (Or.inl rfl) (Or.inl rfl)

/-- C7: the installer-script parser maps the two-line example document to
exactly the two expected entries; the lone malformed statement yields an
empty mapping (and, the embedding being total, no exception); and in
general a key looks up to the value of its last match in document order. -/
theorem C7_parser_examples_and_last_wins :
    (∀ k, ParseInstallerScriptString
        "\"SU_TITLE\" = \"Foo\";\n\"SU_VERS\" = \x27Bar\x27;" k =
      (if k = "SU_TITLE" then some "Foo"
       else if k = "SU_VERS" then some "Bar" else none)) ∧
    (∀ k, ParseInstallerScriptString "\"X\" = ;" k = none) ∧
    (∀ istr k, ParseInstallerScriptString istr k =
      (((FindIterMatches istr).filter (fun e => e.1 == k)).map Prod.snd).getLast?) := by
  refine ⟨?_, ?_, ?_⟩
  · intro k
    have h : FindIterMatches "\"SU_TITLE\" = \"Foo\";\n\"SU_VERS\" = \x27Bar\x27;" =
        [("SU_TITLE", "Foo"), ("SU_VERS", "Bar")] := by decide
    unfold ParseInstallerScriptString
    rw [h]
    simp only [List.foldl_cons, List.foldl_nil]
    by_cases h1 : k = "SU_TITLE" <;> by_cases h2 : k = "SU_VERS" <;>
      simp [h1, h2]
  · intro k
    have h : FindIterMatches "\"X\" = ;" = [] := by decide
    unfold ParseInstallerScriptString
    rw [h]
    simp
  · intro istr k
    unfold ParseInstallerScriptString
    rw [parseDict_foldl_lookup]
    simp

/-- C7, witness. -/
theorem C7_witness :
    ParseInstallerScriptString
      "\"SU_TITLE\" = \"Foo\";\n\"SU_VERS\" = \x27Bar\x27;" "SU_VERS" = some "Bar" := by
  have h := C7_parser_examples_and_last_wins.1 "SU_VERS"
  simpa using h

/-- C8, counterexample: supplying both arguments, with `track` the empty
string, does not raise — Python truthiness treats the empty string as not
supplied, so the mutual-exclusion branch is skipped and the catalogs for
the supplied track list are generated. -/
theorem C8_counterexample :
    GenerateAppleSUSCatalogs (some "") (some ["stable"]) =
      Except.ok [("10.5", "stable"), ("10.6", "stable"), ("10.7", "stable")] := rfl

/-- C8, amended: with supplied read as truthy (a non-empty string, a
non-empty list), both supplied raises `ValueError`; neither supplied
processes all known tracks; one supplied processes exactly it; and the
generated pair list covers each selected track crossed with every supported
OS version. -/
theorem C8_amended (track : Option String) (tracks : Option (List String)) :
    (truthyTrack track = true → truthyTracks tracks = true →
      GenerateAppleSUSCatalogs track tracks =
        Except.error (PyError.valueError "only one of track and tracks is allowed")) ∧
    (truthyTrack track = false → truthyTracks tracks = false →
      GenerateAppleSUSCatalogs track tracks =
        Except.ok (TRACKS.flatMap (fun t => OS_VERSIONS.map (fun osv => (osv, t))))) ∧
    (truthyTrack track = true → truthyTracks tracks = false →
      ∃ s, track = some s ∧ GenerateAppleSUSCatalogs track tracks =
        Except.ok ([s].flatMap (fun t => OS_VERSIONS.map (fun osv => (osv, t))))) ∧
    (truthyTrack track = false → truthyTracks tracks = true →
      ∃ l, tracks = some l ∧ GenerateAppleSUSCatalogs track tracks =
        Except.ok (l.flatMap (fun t => OS_VERSIONS.map (fun osv => (osv, t))))) ∧
    (∀ (L : List String) (osv tr : String),
      (osv, tr) ∈ L.flatMap (fun t => OS_VERSIONS.map (fun o => (o, t))) ↔
        (tr ∈ L ∧ osv ∈ OS_VERSIONS)) := by
  refine ⟨?_, ?_, ?_, ?_, ?_⟩
  · intro h1 h2
    unfold GenerateAppleSUSCatalogs
    simp [h1, h2]
  · intro h1 h2
    unfold GenerateAppleSUSCatalogs
    simp [h1, h2]
  · intro h1 h2
    match track, h1 with
    | some s, h1 =>
      refine ⟨s, rfl, ?_⟩
      unfold GenerateAppleSUSCatalogs
      simp [h1, h2]
  · intro h1 h2
    match tracks, h2 with
    | some l, h2 =>
      refine ⟨l, rfl, ?_⟩
      unfold GenerateAppleSUSCatalogs
      simp [h1, h2]
  · intro L osv tr
    simp only [List.mem_flatMap, List.mem_map]
    constructor
    · rintro ⟨t, ht, o, ho, heq⟩
      obtain ⟨h1, h2⟩ := Prod.mk.injEq .. ▸ heq
      exact ⟨h2 ▸ ht, h1 ▸ ho⟩
    · rintro ⟨htr, hosv⟩
      exact ⟨tr, htr, osv, hosv, rfl⟩

/-- C8, witness for the amended theorem. -/
theorem C8_amended_witness :
    GenerateAppleSUSCatalogs (some "stable") (some ["testing"]) =
      Except.error (PyError.valueError "only one of track and tracks is allowed") ∧
    GenerateAppleSUSCatalogs none none =
      Except.ok (TRACKS.flatMap (fun t => OS_VERSIONS.map (fun osv => (osv, t)))) :=
  ⟨(C8_amended (some "stable") (some ["testing"])).1 (by decide) (by decide),
    (C8_amended none none).2.1 rfl rfl⟩

/-- C9: for a product with manual override set, or whose track list lacks
unstable, `GetAutoPromoteDate` returns None without raising for every track
argument whatsoever, because both guards are evaluated before the track
argument is validated. -/
theorem C9_guards_precede_track_validation (track : String) (p : AppleSUSProduct)
    (h : p.manual_override = true ∨ UNSTABLE ∉ p.tracks) :
    GetAutoPromoteDate track p = Except.ok none := by
  unfold GetAutoPromoteDate
  rcases h with h | h
  · simp [h]
  · by_cases hm : p.manual_override <;> simp [hm, h]

/-- C9, witness: an invalid track on an overridden product. -/
theorem C9_witness :
    GetAutoPromoteDate "unstable" ⟨true, ["unstable"], 3⟩ = Except.ok none :=
  C9_guards_precede_track_validation "unstable" ⟨true, ["unstable"], 3⟩ (Or.inl rfl)

/-- C10: a well-formed document with a strings element but no localization
element is rejected with `DocumentFormatError`, because the localization
element is indexed (and the `IndexError` converted) even though its content
is never used. -/
theorem C10_localization_required (parseString : String → Option XmlDoc)
    (s : String) (doc : XmlDoc) (hp : parseString s = some doc)
    (hloc : doc.localization = []) (hstr : doc.strings ≠ []) :
    LoadDocument parseString s = Except.error PyError.documentFormatError := by
  unfold LoadDocument
  rw [hp]
  simp [hloc]

/-- C10, witness. -/
theorem C10_witness :
    LoadDocument (fun _ => some ⟨[], [[some "x"]]⟩) "<x/>" =
      Except.error PyError.documentFormatError :=
  C10_localization_required (fun _ => some ⟨[], [[some "x"]]⟩) "<x/>"
    ⟨[], [[some "x"]]⟩ rfl rfl (by simp)
